import Mathlib

set_option maxHeartbeats 1000000

/-!
Shallow embedding of the minigrep pipeline from `src/main.rs`.

The regular-expression engine and file input are external collaborators:
they are modelled as function parameters (`re_match : String → Bool` for
`Regex::is_match`, `re_captures : String → Option (List (Option String))`
for `Regex::captures`, where each capture slot is `none` when the group
did not participate) and as a `List String` of input lines.

Printed output is modelled as a `List String` of emitted lines; a Rust
panic (index out of range in the formatter) is modelled as `none` in
`Option (List String)`.
-/

namespace Minigrep

/-- The options record built by argument parsing (`struct MinigrepOptions`). -/
structure MinigrepOptions where
  filename : String
  query : String
  invert_match : Bool
  dump_capture_groups : Bool
deriving DecidableEq

/-- The flag-scanning loop of `parse_args` (main.rs lines 37-47): walks the
tokens with two mutable booleans, setting `invert_match` on `"-v"` and
`dump_capture_groups` on `"-g"`, ignoring every other token. -/
def scanFlags : List String → Bool → Bool → Bool × Bool
  | [], invert_match, dump_capture_groups => (invert_match, dump_capture_groups)
  | arg :: rest, invert_match, dump_capture_groups =>
    let invert_match := if arg == "-v" then true else invert_match
    let dump_capture_groups := if arg == "-g" then true else dump_capture_groups
    scanFlags rest invert_match dump_capture_groups

/-- `parse_args` (main.rs lines 31-58): errors when fewer than 3 tokens in
total (program name included); otherwise scans indices `1 .. arg_count - 2`
(exclusive) for flags and takes the second-to-last token as `query` and the
last as `filename`. -/
def parse_args (args : List String) : Except String MinigrepOptions :=
  let arg_count := args.length
  if arg_count < 3 then
    .error "not enough arguments"
  else
    let scanned := scanFlags ((args.drop 1).take (arg_count - 3)) false false
    let query := args.getD (arg_count - 2) ""
    let filename := args.getD (arg_count - 1) ""
    .ok { filename := filename, query := query,
          invert_match := scanned.1,
          dump_capture_groups := scanned.2 }

/-- `match_line` (main.rs lines 72-75): delegates to the external regex
matcher. -/
def match_line (_options : MinigrepOptions) (re_match : String → Bool)
    (line : String) : Bool :=
  re_match line

/-- The `should_write` computation of `output_line` (main.rs lines 78-82):
starts from `is_match` and is overwritten with `!is_match` when
`invert_match` is set. -/
def should_write (options : MinigrepOptions) (is_match : Bool) : Bool :=
  let sw := is_match
  let sw := if options.invert_match then !is_match else sw
  sw

/-- `CaptureGroupVec::fmt` (main.rs lines 111-122): appends every element of
the slice `self.0[1 .. len - 1]` followed by a comma, then appends
`self.0[len - 1]`. The slice bounds are valid only when the vector has at
least two elements; with zero or one element the Rust code aborts (slice
index out of range), modelled as `none`. -/
def captureGroupVecFmt (v : List String) : Option String :=
  if 2 ≤ v.length then
    some ((((v.drop 1).take (v.length - 2)).foldl
        (fun comma_separated capture => comma_separated ++ capture ++ ",") "")
      ++ v.getD (v.length - 1) "")
  else
    none

/-- `write_capture_groups` (main.rs lines 98-109): re-runs capture
extraction on the line; on an absent result emits nothing, otherwise maps
each optional capture slot to its text (empty string when absent) and
prints the formatted vector. A formatter abort propagates as `none`. -/
def write_capture_groups (_options : MinigrepOptions)
    (re_captures : String → Option (List (Option String)))
    (line : String) : Option (List String) :=
  match re_captures line with
  | none => some []
  | some captures =>
    let ms := captures.map (fun c => c.getD "")
    match captureGroupVecFmt ms with
    | none => none
    | some s => some [s]

/-- `normal_output` (main.rs lines 94-96): prints the line verbatim. -/
def normal_output (_options : MinigrepOptions) (line : String) : List String :=
  [line]

/-- `output_line` (main.rs lines 77-92): returns silently when
`should_write` is false, otherwise emits either the capture-group dump or
the plain line. -/
def output_line (options : MinigrepOptions)
    (re_captures : String → Option (List (Option String)))
    (line : String) (is_match : Bool) : Option (List String) :=
  if !(should_write options is_match) then
    some []
  else if options.dump_capture_groups then
    write_capture_groups options re_captures line
  else
    some (normal_output options line)

/-- The per-line loop of `run` (main.rs lines 124-146): for each input line
in order, computes the match verdict and appends whatever `output_line`
emits; an abort in formatting stops the run (`none`). -/
def run (options : MinigrepOptions) (re_match : String → Bool)
    (re_captures : String → Option (List (Option String))) :
    List String → Option (List String)
  | [] => some []
  | line :: rest =>
    match output_line options re_captures line
        (match_line options re_match line) with
    | none => none
    | some out =>
      match run options re_match re_captures rest with
      | none => none
      | some outs => some (out ++ outs)

/-- Modelled from the spec's wording in section 4.3: the comma-separated
join of a list of strings, commas between consecutive elements and none
trailing. Used to compare the formatter loop against the spec. -/
def commaJoin : List String → String
  | [] => ""
  | [a] => a
  | a :: b :: t => a ++ "," ++ commaJoin (b :: t)

/-- Accumulating a fold that appends element-comma pairs factors through an
empty accumulator. -/
theorem foldl_comma_append (l : List String) (s : String) :
    l.foldl (fun acc c => acc ++ c ++ ",") s =
      s ++ l.foldl (fun acc c => acc ++ c ++ ",") "" := by
  induction l generalizing s with
  | nil => simp [String.append_empty]
  | cons a t ih =>
    simp only [List.foldl_cons]
    rw [ih (s ++ a ++ ","), ih ("" ++ a ++ ",")]
    simp [String.empty_append, String.append_assoc]

/-- The formatter loop (comma after every element but the last, which is
appended directly) computes the comma-separated join. -/
theorem fmt_loop_eq_commaJoin (l : List String) (h : l ≠ []) :
    ((l.take (l.length - 1)).foldl (fun acc c => acc ++ c ++ ",") "")
      ++ l.getD (l.length - 1) "" = commaJoin l := by
  induction l with
  | nil => exact absurd rfl h
  | cons a t ih =>
    cases t with
    | nil => simp [commaJoin, String.empty_append]
    | cons b u =>
      have ihbu := ih (by simp)
      have hlen : (b :: u).length - 1 = u.length := by simp
      rw [hlen] at ihbu
      have hlen2 : (a :: b :: u).length - 1 = u.length + 1 := by simp
      rw [hlen2, List.take_succ_cons, List.foldl_cons, List.getD_cons_succ,
        foldl_comma_append, String.empty_append, String.append_assoc, ihbu]
      simp [commaJoin, String.append_assoc]

/-- The flag loop is characterized by membership of the two flag tokens. -/
theorem scanFlags_spec (l : List String) (iv dg : Bool) :
    scanFlags l iv dg = (iv || decide ("-v" ∈ l), dg || decide ("-g" ∈ l)) := by
  induction l generalizing iv dg with
  | nil => simp [scanFlags]
  | cons a t ih =>
    simp only [scanFlags]
    rw [ih]
    by_cases hv : a = "-v"
    · subst hv
      simp
    · by_cases hg : a = "-g"
      · subst hg
        simp
      · simp [hv, hg, Ne.symm hv, Ne.symm hg]

/-- Reading at the index equal to the left part's length lands on the head
of the right part. -/
theorem getD_append_len (l : List String) (a : String) (r : List String) :
    (l ++ a :: r).getD l.length "" = a := by
  induction l with
  | nil => rfl
  | cons x t ih => simpa using ih

/-- Closed form of parse_args on an argument list shaped as program name,
middle tokens, query, filename. -/
theorem parse_args_shape (p q f : String) (mid : List String) :
    parse_args (p :: (mid ++ [q, f])) =
      .ok { filename := f, query := q,
            invert_match := decide ("-v" ∈ mid),
            dump_capture_groups := decide ("-g" ∈ mid) } := by
  have hlen : (p :: (mid ++ [q, f])).length = mid.length + 3 := by simp
  simp only [parse_args, hlen]
  rw [if_neg (by omega)]
  have hdrop : (p :: (mid ++ [q, f])).drop 1 = mid ++ [q, f] := rfl
  have htake : (mid ++ [q, f]).take (mid.length + 3 - 3) = mid := by
    have : mid.length + 3 - 3 = mid.length := by omega
    rw [this]
    exact List.take_left mid [q, f]
  have hq : (p :: (mid ++ [q, f])).getD (mid.length + 3 - 2) "" = q := by
    have : mid.length + 3 - 2 = mid.length + 1 := by omega
    rw [this, List.getD_cons_succ]
    exact getD_append_len mid q [f]
  have hf : (p :: (mid ++ [q, f])).getD (mid.length + 3 - 1) "" = f := by
    have h1 : mid.length + 3 - 1 = (mid ++ [q]).length + 1 := by simp
    have h2 : mid ++ [q, f] = (mid ++ [q]) ++ [f] := by simp
    rw [h1, List.getD_cons_succ, h2]
    exact getD_append_len (mid ++ [q]) f []
  rw [hdrop, htake, hq, hf, scanFlags_spec]
  simp

/-- The formatter succeeds on vectors of at least two elements and produces
the comma-separated join of everything after the whole-match slot. -/
theorem captureGroupVecFmt_eq_commaJoin (v : List String) (h : 2 ≤ v.length) :
    captureGroupVecFmt v = some (commaJoin (v.drop 1)) := by
  obtain ⟨a, b, t, rfl⟩ : ∃ a b t, v = a :: b :: t := by
    match v, h with
    | a :: b :: t, _ => exact ⟨a, b, t, rfl⟩
  rw [captureGroupVecFmt, if_pos (by simp)]
  have hd1 : (a :: b :: t).drop 1 = b :: t := rfl
  have hl : (a :: b :: t).length - 2 = (b :: t).length - 1 := by simp
  have hg : (a :: b :: t).getD ((a :: b :: t).length - 1) ""
      = (b :: t).getD ((b :: t).length - 1) "" := by
    have h1 : (a :: b :: t).length - 1 = (b :: t).length - 1 + 1 := by simp
    rw [h1, List.getD_cons_succ]
  rw [hd1, hl, hg, fmt_loop_eq_commaJoin (b :: t) (by simp)]

/-- C1: the spec says that with dumpCaptureGroups set and a pattern with no
capture groups (a one-slot Capture Set) the join logic does not fail and
prints the sole slot. The code instead aborts: the formatter slices
indices 1 through len-1 of a length-1 vector, which is out of range, so
the run crashes and emits nothing (modelled as none). -/
theorem no_group_dump_aborts :
    captureGroupVecFmt ["foo"] = none ∧
    output_line { filename := "file", query := "foo",
                  invert_match := false, dump_capture_groups := true }
        (fun _ => some [some "foo"]) "foo" true = none :=
  ⟨rfl, rfl⟩

/-- C2: parse_args fails with the insufficient-arguments error exactly when
the total argument count (program token included) is below 3, and succeeds
(no failure of any kind) otherwise. -/
theorem parse_args_arity (args : List String) :
    (parse_args args = .error "not enough arguments" ↔ args.length < 3) ∧
    ((∃ opts, parse_args args = .ok opts) ↔ 3 ≤ args.length) := by
  by_cases h : args.length < 3
  · simp only [parse_args]
    rw [if_pos h]
    constructor
    · simp [h]
    · constructor
      · rintro ⟨opts, hc⟩
        cases hc
      · omega
  · simp only [parse_args]
    rw [if_neg h]
    constructor
    · constructor
      · intro hc
        cases hc
      · omega
    · constructor
      · intro _
        omega
      · exact fun _ => ⟨_, rfl⟩

/-- C3: when dumpCaptureGroups is set and the line is to be emitted, a
Capture Set of at least two slots is printed as the comma-separated join
of the slots after the first (whole-match) slot: each middle slot gets a
trailing comma and the last slot is appended with none. -/
theorem dump_output_is_comma_join (opts : MinigrepOptions)
    (re_captures : String → Option (List (Option String)))
    (line : String) (is_match : Bool) (caps : List (Option String))
    (hd : opts.dump_capture_groups = true)
    (hw : should_write opts is_match = true)
    (hc : re_captures line = some caps)
    (h2 : 2 ≤ caps.length) :
    output_line opts re_captures line is_match
      = some [commaJoin ((caps.map (fun c => c.getD "")).drop 1)] := by
  have hm2 : 2 ≤ (caps.map (fun c => c.getD "")).length := by
    rw [List.length_map]
    exact h2
  simp only [output_line, hw, hd, Bool.not_true, if_true, if_false]
  simp only [write_capture_groups, hc]
  rw [captureGroupVecFmt_eq_commaJoin _ hm2]
  simp

/-- Witness for C3: Scenario C of the spec — capture set [foo=1, foo, 1]
yields the output line foo,1. -/
theorem dump_output_is_comma_join_witness :
    output_line { filename := "f", query := "w", invert_match := false,
                  dump_capture_groups := true }
        (fun _ => some [some "foo=1", some "foo", some "1"]) "foo=1" true
      = some ["foo,1"] := by
  have h := dump_output_is_comma_join
    { filename := "f", query := "w", invert_match := false,
      dump_capture_groups := true }
    (fun _ => some [some "foo=1", some "foo", some "1"]) "foo=1" true
    [some "foo=1", some "foo", some "1"] rfl rfl rfl (by decide)
  rw [h]
  decide

/-- C4: every accepted argument list has its last token taken as filename
and its second-to-last as query, whatever their text. -/
theorem parse_args_positional (args : List String) (h : 3 ≤ args.length) :
    ∃ opts, parse_args args = .ok opts ∧
      opts.filename = args.getD (args.length - 1) "" ∧
      opts.query = args.getD (args.length - 2) "" := by
  have hne : ¬ args.length < 3 := by omega
  refine ⟨{ filename := args.getD (args.length - 1) "",
            query := args.getD (args.length - 2) "",
            invert_match :=
              (scanFlags ((args.drop 1).take (args.length - 3)) false false).1,
            dump_capture_groups :=
              (scanFlags ((args.drop 1).take (args.length - 3)) false false).2 },
    ?_, rfl, rfl⟩
  simp only [parse_args]
  rw [if_neg hne]

/-- Witness for C4: the last two tokens look like flags yet are still taken
positionally, so query is "-g" and filename is "-v". -/
theorem parse_args_positional_witness :
    3 ≤ (["prog", "-g", "-v"] : List String).length ∧
    ∃ opts, parse_args ["prog", "-g", "-v"] = .ok opts ∧
      opts.filename = (["prog", "-g", "-v"] : List String).getD 2 "" ∧
      opts.query = (["prog", "-g", "-v"] : List String).getD 1 "" :=
  ⟨by decide, parse_args_positional ["prog", "-g", "-v"] (by decide)⟩

/-- C5: flag booleans are exactly membership of "-v" and "-g" among the
tokens strictly between the program name and the last two positions;
parsing never fails there, is invariant under permuting that middle range,
under appending a duplicate of a token already present, and under adding
an unrecognized token. -/
theorem parse_args_flag_laws (p q f t u : String) (mid mid2 : List String)
    (hperm : mid.Perm mid2) (ht : t ∈ mid)
    (hu1 : u ≠ "-v") (hu2 : u ≠ "-g") :
    parse_args (p :: (mid ++ [q, f])) =
      .ok { filename := f, query := q,
            invert_match := decide ("-v" ∈ mid),
            dump_capture_groups := decide ("-g" ∈ mid) } ∧
    parse_args (p :: (mid ++ [q, f])) = parse_args (p :: (mid2 ++ [q, f])) ∧
    parse_args (p :: ((mid ++ [t]) ++ [q, f]))
      = parse_args (p :: (mid ++ [q, f])) ∧
    parse_args (p :: ((u :: mid) ++ [q, f]))
      = parse_args (p :: (mid ++ [q, f])) := by
  refine ⟨parse_args_shape p q f mid, ?_, ?_, ?_⟩
  · rw [parse_args_shape, parse_args_shape]
    have h1 : ("-v" ∈ mid) ↔ ("-v" ∈ mid2) := hperm.mem_iff
    have h2 : ("-g" ∈ mid) ↔ ("-g" ∈ mid2) := hperm.mem_iff
    rw [decide_eq_decide.mpr h1, decide_eq_decide.mpr h2]
  · rw [parse_args_shape, parse_args_shape]
    have h1 : ("-v" ∈ mid ++ [t]) ↔ ("-v" ∈ mid) := by
      simp only [List.mem_append, List.mem_singleton]
      refine ⟨fun h => h.elim id (fun hv => ?_), Or.inl⟩
      rw [hv]
      exact ht
    have h2 : ("-g" ∈ mid ++ [t]) ↔ ("-g" ∈ mid) := by
      simp only [List.mem_append, List.mem_singleton]
      refine ⟨fun h => h.elim id (fun hg => ?_), Or.inl⟩
      rw [hg]
      exact ht
    rw [decide_eq_decide.mpr h1, decide_eq_decide.mpr h2]
  · rw [parse_args_shape, parse_args_shape]
    have h1 : ("-v" ∈ u :: mid) ↔ ("-v" ∈ mid) := by
      simp only [List.mem_cons]
      refine ⟨fun h => h.elim (fun hv => absurd hv.symm hu1) id, Or.inr⟩
    have h2 : ("-g" ∈ u :: mid) ↔ ("-g" ∈ mid) := by
      simp only [List.mem_cons]
      refine ⟨fun h => h.elim (fun hg => absurd hg.symm hu2) id, Or.inr⟩
    rw [decide_eq_decide.mpr h1, decide_eq_decide.mpr h2]

/-- Witness for C5: a middle range with duplicated flags and a stray token,
permuted, duplicated and extended, all parsing to the same options. -/
theorem parse_args_flag_laws_witness :
    (["-v", "zz", "-g"] : List String).Perm ["zz", "-g", "-v"] ∧
    "-v" ∈ (["-v", "zz", "-g"] : List String) ∧
    "xx" ≠ "-v" ∧ "xx" ≠ "-g" ∧
    (parse_args ["p", "-v", "zz", "-g", "q", "f"] =
      .ok { filename := "f", query := "q",
            invert_match := decide ("-v" ∈ (["-v", "zz", "-g"] : List String)),
            dump_capture_groups :=
              decide ("-g" ∈ (["-v", "zz", "-g"] : List String)) } ∧
    parse_args ["p", "-v", "zz", "-g", "q", "f"] =
      parse_args ["p", "zz", "-g", "-v", "q", "f"] ∧
    parse_args ["p", "-v", "zz", "-g", "-v", "q", "f"] =
      parse_args ["p", "-v", "zz", "-g", "q", "f"] ∧
    parse_args ["p", "xx", "-v", "zz", "-g", "q", "f"] =
      parse_args ["p", "-v", "zz", "-g", "q", "f"]) :=
  ⟨by decide, by decide, by decide, by decide,
    parse_args_flag_laws "p" "q" "f" "-v" "xx" ["-v", "zz", "-g"]
      ["zz", "-g", "-v"] (by decide) (by decide) (by decide) (by decide)⟩

/-- C6: the write decision with invertMatch set is the negation of the
decision with it cleared, all other options equal; and when the decision
is not to write, output_line emits nothing at all. -/
theorem output_line_inversion (opts : MinigrepOptions)
    (re_captures : String → Option (List (Option String)))
    (line : String) (is_match : Bool)
    (h : should_write opts is_match = false) :
    should_write { opts with invert_match := true } is_match
        = ! should_write { opts with invert_match := false } is_match ∧
    output_line opts re_captures line is_match = some [] := by
  constructor
  · rfl
  · simp only [output_line, h, Bool.not_false, if_true]

/-- Witness for C6: a non-matching line under default options is not
written and produces no output. -/
theorem output_line_inversion_witness :
    should_write { filename := "f", query := "q", invert_match := false,
                   dump_capture_groups := false } false = false ∧
    (should_write { filename := "f", query := "q", invert_match := true,
                    dump_capture_groups := false } false
        = ! should_write { filename := "f", query := "q",
                           invert_match := false,
                           dump_capture_groups := false } false ∧
      output_line { filename := "f", query := "q", invert_match := false,
                    dump_capture_groups := false }
          (fun _ => none) "apple" false = some []) :=
  ⟨rfl, output_line_inversion _ (fun _ => none) "apple" false rfl⟩

/-- C7: when capture extraction returns an absent result for the line,
write_capture_groups emits nothing and does not fail. -/
theorem write_capture_groups_absent (opts : MinigrepOptions)
    (re_captures : String → Option (List (Option String))) (line : String)
    (h : re_captures line = none) :
    write_capture_groups opts re_captures line = some [] := by
  simp only [write_capture_groups, h]

/-- Witness for C7: a capture function that returns nothing on the line. -/
theorem write_capture_groups_absent_witness :
    ((fun _ : String =>
        (none : Option (List (Option String)))) "x" = none) ∧
    write_capture_groups { filename := "f", query := "q",
                           invert_match := false,
                           dump_capture_groups := true }
      (fun _ => none) "x" = some [] :=
  ⟨rfl, write_capture_groups_absent _ (fun _ => none) "x" rfl⟩

/-- C8: a capture slot that did not participate is rendered as the empty
string in place: the rendered list keeps one slot per capture (same
length), the absent slot renders as "", and the emitted output equals the
output for the same Capture Set with that slot holding an explicit empty
string, so the comma structure is preserved. -/
theorem capture_empty_slot_preserved (opts : MinigrepOptions)
    (re1 re2 : String → Option (List (Option String))) (line : String)
    (caps : List (Option String)) (i : Nat)
    (h1 : re1 line = some caps) (hi : i < caps.length)
    (hnone : caps.get ⟨i, hi⟩ = none)
    (h2 : re2 line = some (caps.set i (some ""))) :
    (caps.map (fun c => c.getD "")).length = caps.length ∧
    (caps.map (fun c => c.getD "")).get
        ⟨i, by rw [List.length_map]; exact hi⟩ = "" ∧
    write_capture_groups opts re1 line = write_capture_groups opts re2 line := by
  have hget : (caps.map (fun c => c.getD "")).get
      ⟨i, by rw [List.length_map]; exact hi⟩ = "" := by
    rw [List.get_eq_getElem, List.getElem_map]
    rw [List.get_eq_getElem] at hnone
    rw [hnone]
    rfl
  refine ⟨List.length_map _ _, hget, ?_⟩
  have hmapeq : (caps.set i (some "")).map (fun c => c.getD "")
      = caps.map (fun c => c.getD "") := by
    rw [List.map_set]
    apply List.ext_get
    · simp
    · intro n hn1 hn2
      by_cases hni : n = i
      · subst hni
        rw [List.get_eq_getElem, List.getElem_set_self]
        exact hget.symm
      · rw [List.get_eq_getElem, List.get_eq_getElem,
          List.getElem_set_ne (fun he => hni he.symm)]
  simp only [write_capture_groups, h1, h2, hmapeq]

/-- Witness for C8: capture set [some a, none]; the absent slot renders as
the empty string and the output matches the explicit-empty-slot set. -/
theorem capture_empty_slot_preserved_witness :
    ((fun _ : String => some [some "a", (none : Option String)]) "x"
        = some [some "a", none]) ∧
    (1 < ([some "a", (none : Option String)] : List (Option String)).length) ∧
    (([some "a", (none : Option String)] : List (Option String)).get
        ⟨1, by decide⟩ = none) ∧
    ((fun _ : String => some (([some "a", none] : List (Option String)).set 1
        (some ""))) "x"
      = some (([some "a", none] : List (Option String)).set 1 (some ""))) ∧
    (([some "a", (none : Option String)].map (fun c => c.getD "")).length
        = ([some "a", (none : Option String)] : List (Option String)).length ∧
      ([some "a", (none : Option String)].map (fun c => c.getD "")).get
          ⟨1, by decide⟩ = "" ∧
      write_capture_groups { filename := "f", query := "q",
                             invert_match := false,
                             dump_capture_groups := true }
          (fun _ => some [some "a", none]) "x"
        = write_capture_groups { filename := "f", query := "q",
                                 invert_match := false,
                                 dump_capture_groups := true }
            (fun _ => some (([some "a", none] : List (Option String)).set 1
              (some ""))) "x") :=
  ⟨rfl, by decide, rfl, rfl,
    capture_empty_slot_preserved _ _ _ "x" [some "a", none] 1
      rfl (by decide) rfl rfl⟩

/-- C9: the pipeline is deterministic — equal options, matcher, capture
function and input lines give identical output. -/
theorem run_deterministic (opts1 opts2 : MinigrepOptions)
    (m1 m2 : String → Bool)
    (c1 c2 : String → Option (List (Option String)))
    (lines1 lines2 : List String)
    (ho : opts1 = opts2) (hm : m1 = m2) (hc : c1 = c2)
    (hl : lines1 = lines2) :
    run opts1 m1 c1 lines1 = run opts2 m2 c2 lines2 := by
  subst ho hm hc hl
  rfl

/-- Witness for C9: two identical runs over a three-line file agree, and
the common output is the single matching line. -/
theorem run_deterministic_witness :
    run { filename := "f", query := "banana", invert_match := false,
          dump_capture_groups := false }
        (fun l => l == "banana") (fun _ => none)
        ["apple", "banana", "cherry"]
      = run { filename := "f", query := "banana", invert_match := false,
              dump_capture_groups := false }
          (fun l => l == "banana") (fun _ => none)
          ["apple", "banana", "cherry"] ∧
    run { filename := "f", query := "banana", invert_match := false,
          dump_capture_groups := false }
        (fun l => l == "banana") (fun _ => none)
        ["apple", "banana", "cherry"] = some ["banana"] :=
  ⟨run_deterministic _ _ _ _ _ _ _ _ rfl rfl rfl rfl, by decide⟩

/-- C10: with exactly one capture group (a two-slot Capture Set) on an
emitted line under dumpCaptureGroups, the output line is exactly the
rendered slot-1 text, with no comma appended. -/
theorem one_group_dump (opts : MinigrepOptions)
    (re_captures : String → Option (List (Option String)))
    (line : String) (is_match : Bool) (c0 c1 : Option String)
    (hd : opts.dump_capture_groups = true)
    (hw : should_write opts is_match = true)
    (hc : re_captures line = some [c0, c1]) :
    output_line opts re_captures line is_match = some [c1.getD ""] := by
  simp only [output_line, hw, hd, Bool.not_true, if_true, if_false]
  simp only [write_capture_groups, hc, List.map_cons, List.map_nil]
  simp [captureGroupVecFmt, String.empty_append, List.getD]

/-- Witness for C10: capture set [ab, b] prints just b. -/
theorem one_group_dump_witness :
    output_line { filename := "f", query := "a(b)", invert_match := false,
                  dump_capture_groups := true }
        (fun _ => some [some "ab", some "b"]) "ab" true
      = some [(some "b").getD ""] :=
  one_group_dump _ _ "ab" true (some "ab") (some "b") rfl rfl rfl

end Minigrep
